import Mathlib

/-!
Verification of the shelldoc documentation-testing engine against its
natural-language specification.

The development shallowly embeds the relevant Go code:
* `pkg/shell/shell.go` (`ExecuteCommand`, the marker-framing scan, the
  timeout/cancellation race, `Exit`/`Kill`),
* `pkg/run` (`performInteractions`, the per-file interaction loop),
* the `pkg/tokenizer` package (its implementation is not in the sources,
  only its unit tests; the relevant functions are modelled from the spec
  and pinned to the behaviour the in-repo tests demand).

Concurrency (the goroutine running the scanner raced against a timer and
the context) is embedded by making the winner of the race an explicit
parameter: the Go `select` picks exactly one ready case, and every claim
about the race is a statement about which winner yields which result.
-/

namespace Shelldoc

/-- Strips `pfx` from the front of `cs`, returning the rest; `none` when
`pfx` is not a prefix.  (A structurally recursive stand-in for the string
prefix operations of the Go standard library.) -/
def stripPrefixCL : List Char → List Char → Option (List Char)
  | [], rest => some rest
  | _ :: _, [] => none
  | a :: as, b :: bs => if a = b then stripPrefixCL as bs else none

/-- Whitespace trimming on characters, as Go `strings.TrimSpace` does on
both ends of a string. -/
def trimCL (cs : List Char) : List Char :=
  ((cs.dropWhile Char.isWhitespace).reverse.dropWhile Char.isWhitespace).reverse

/-- Go `strings.TrimSpace`. -/
def goTrimSpace (s : String) : String := String.mk (trimCL s.toList)

namespace Shell

/-- The begin sentinel from `ExecuteCommand` in `pkg/shell/shell.go`. -/
def beginMarker : String := ">>>>>>>>>>SHELLDOC_MARKER>>>>>>>>>>>>>>>>>>>>>>>>>>>>>>"

/-- The end sentinel from `ExecuteCommand` in `pkg/shell/shell.go`. -/
def endMarker : String := "<<<<<<<<<<SHELLDOC_MARKER"

/-- The two lines `ExecuteCommand` writes to the shell's stdin: an echo of
the begin marker, then the trimmed command sequenced (via `;`) with an echo
of the end marker and `$?`.  Embeds lines 84-86 of `pkg/shell/shell.go`;
each `io.WriteString` call contributes one `\n`-terminated line, kept here
without the terminator. -/
def writtenInput (command : String) : List String :=
  ["echo \"" ++ beginMarker ++ "\"",
   goTrimSpace command ++ "; echo \"" ++ endMarker ++ " $?\""]

/-- Whether a scanned line matches the begin regex `^<marker>$`: with both
anchors and no metacharacters in the sentinel this is equality with the
sentinel. -/
def matchesBegin (line : String) : Bool := line.toList == beginMarker.toList

/-- The end regex `^<marker> (.+)$` applied to a line: returns the capture
group (the non-empty text after `"<marker> "`) when the line matches.
Scanner lines contain no newline, so `(.+)` is simply the non-empty rest of
the line. -/
def endMatch (line : String) : Option String :=
  match stripPrefixCL (endMarker ++ " ").toList line.toList with
  | some [] => none
  | some rest => some (String.mk rest)
  | none => none

/-- Embeds Go `strconv.Atoi`: an optional single sign followed by at least
one decimal digit; anything else is a parse error.  (The Go function also
range-checks against the machine int; the exit codes at issue fit easily,
so the embedding uses unbounded `Int`.) -/
def digitsToNat (ds : List Char) : Option Nat :=
  if ds.isEmpty then none
  else if ds.all (fun c => c.isDigit) then
    some (ds.foldl (fun a c => a * 10 + (c.toNat - 48)) 0)
  else none

/-- Go `strconv.Atoi` on a string, yielding an `Int`. -/
def goAtoi (s : String) : Option Int :=
  match s.toList with
  | '+' :: ds => (digitsToNat ds).map (fun n => (n : Int))
  | '-' :: ds => (digitsToNat ds).map (fun n => -(n : Int))
  | ds => (digitsToNat ds).map (fun n => (n : Int))

/-- Result of the scanner goroutine (`commandResult` without the untyped
`error`): either the collected output with the parsed exit code, or the
protocol error raised when the end marker's trailing token is not an
integer. -/
inductive ScanResult where
  | success (output : List String) (rc : Int)
  | protocolError
deriving DecidableEq, Repr

/-- The scanner goroutine of `ExecuteCommand` (lines 95-122 of
`pkg/shell/shell.go`) as a function of the lines available on the shell's
stdout.  `beginFound` and `acc` mirror the Go locals `beginFound` and
`output`.  Before the begin marker every line is discarded; a line equal to
the begin marker is consumed (also when seen again later); after it, a line
matching the end regex ends the scan with the parsed exit code (or a
protocol error when parsing fails), and every other line is appended to the
output.  If the stream ends first, the Go loop falls through and reports
the accumulated output with the zero-initialised `rc`. -/
def scanLines : List String → Bool → List String → ScanResult
  | [], _, acc => .success acc 0
  | line :: rest, beginFound, acc =>
    if matchesBegin line then scanLines rest true acc
    else if !beginFound then scanLines rest false acc
    else
      match endMatch line with
      | some tok =>
        match goAtoi tok with
        | some v => .success acc v
        | none => .protocolError
      | none => scanLines rest beginFound (acc ++ [line])

/-- The error values `ExecuteCommand` can deliver: `ErrTimeout`,
`ErrCancelled`, and the exit-code parse failure. -/
inductive ExecErr where
  | timeout
  | cancelled
  | protocol
deriving DecidableEq, Repr

/-- The triple `([]string, int, error)` returned by `ExecuteCommand`; the
Go nil slice is the empty list. -/
structure ExecResult where
  output : List String
  rc : Int
  err : Option ExecErr
deriving DecidableEq, Repr

/-- What the goroutine sends on `resultCh`, as a Go return triple: a
successful scan carries output and exit code with no error, a failed
`Atoi` carries `(nil, -1, error)`. -/
def scanResult (stream : List String) : ExecResult :=
  match scanLines stream false [] with
  | .success o r => ⟨o, r, none⟩
  | .protocolError => ⟨[], -1, some .protocol⟩

/-- Which case of the `select` in `ExecuteCommand` fires first. -/
inductive RaceWinner where
  | scanDone
  | timerFired
  | cancelled
deriving DecidableEq, Repr

/-- `ExecuteCommand` (lines 124-142 of `pkg/shell/shell.go`) as a function
of the stdout stream, the timeout, and the race winner.  With a positive
timeout the `select` has three cases; with a zero timeout no timer is
started, so the timer can never win — that impossible combination is
`none`. -/
def executeCommand (stream : List String) (timeout : Nat)
    (winner : RaceWinner) : Option ExecResult :=
  if 0 < timeout then
    match winner with
    | .scanDone => some (scanResult stream)
    | .timerFired => some ⟨[], -1, some .timeout⟩
    | .cancelled => some ⟨[], -1, some .cancelled⟩
  else
    match winner with
    | .scanDone => some (scanResult stream)
    | .timerFired => none
    | .cancelled => some ⟨[], -1, some .cancelled⟩

end Shell

namespace Run

/-- The interaction result codes of the tokenizer package (constants
`NewInteraction`, `ResultExecutionError`, `ResultMatch`, `ResultRegexMatch`,
`ResultMismatch`, `ResultError`), as exercised by `TestInteractionResult`
and `TestInteractionHasFailure`. -/
inductive ResultCode where
  | newInteraction
  | resultExecutionError
  | resultMatch
  | resultRegexMatch
  | resultMismatch
  | resultError
deriving DecidableEq, Repr

/-- `Interaction.HasFailure` as pinned by `TestInteractionHasFailure`:
only a mismatch or an execution-failed result counts as a failure; an
execution error (shelldoc-internal problem) does not. -/
def hasFailure : ResultCode → Bool
  | .resultMismatch => true
  | .resultError => true
  | _ => false

/-- The environment's behaviour for one loop iteration of
`performInteractions`: whether the cancellation context is already done
when the iteration starts, what error (if any) `Interaction.Execute`
reports, and whether the actual output matches the expected response when
execution succeeds. -/
structure Plan where
  ctxDoneAtStart : Bool
  execErr : Option Shell.ExecErr
  responseMatches : Bool
deriving DecidableEq, Repr

/-- Modelled from the spec: `Interaction.Execute` of the tokenizer package
is not in the sources (only its callers and tests are).  Per §4.3 the
coordinator "classifies as ExecutionError if the process-manager call
itself failed" and otherwise applies the Response Matcher to decide the
final result state, so a failed execution yields `resultExecutionError`
and a successful one yields match or mismatch. -/
def executeResultCode (p : Plan) : ResultCode :=
  match p.execErr with
  | some _ => .resultExecutionError
  | none => if p.responseMatches then .resultMatch else .resultMismatch

/-- One registered JUnit test case of the loop body (lines 99-120 of the
run loop): `RegisterError` is called exactly when `Execute` returned an
error, `RegisterFailure` exactly when the interaction `HasFailure`. -/
structure CaseRecord where
  errorRegistered : Bool
  failureRegistered : Bool
  resultCode : ResultCode
deriving DecidableEq, Repr

/-- The record the loop body registers for one interaction. -/
def stepCase (p : Plan) : CaseRecord :=
  let rc := executeResultCode p
  ⟨(p.execErr).isSome, hasFailure rc, rc⟩

/-- Why the interaction loop stopped. -/
inductive StopReason where
  | completed
  | cancelledAtTop
  | cancelledDuring
  | timedOut
  | failureStop
deriving DecidableEq, Repr

/-- Whether (and why) the loop stops after the iteration for `p`, in the
order the code checks: the `select` on `ctx.Done()` at the top of the loop
returns before dispatching; after the test case is registered, the loop
breaks on `shell.ErrCancelled`, then on `shell.ErrTimeout`, then on a
failure when `FailureStops` is set. -/
def stepStop (failureStops : Bool) (p : Plan) : Option StopReason :=
  if p.ctxDoneAtStart then some .cancelledAtTop
  else if p.execErr == some .cancelled then some .cancelledDuring
  else if p.execErr == some .timeout then some .timedOut
  else if (stepCase p).failureRegistered && failureStops then some .failureStop
  else none

/-- The `for index, interaction := range visitor.Interactions` loop of
`performInteractions`: returns the registered test-case records in order,
and the reason the loop ended.  An iteration that observes cancellation at
the top returns before registering anything; every other iteration
registers its record before any break. -/
def runCases (failureStops : Bool) : List Plan → List CaseRecord × StopReason
  | [] => ([], .completed)
  | p :: rest =>
    match stepStop failureStops p with
    | some .cancelledAtTop => ([], .cancelledAtTop)
    | some s => ([stepCase p], s)
    | none =>
      let r := runCases failureStops rest
      (stepCase p :: r.1, r.2)

/-- How the shell session is terminated at the end of the run:
`Shell.Exit` writes `"exit"` to stdin and waits (graceful), `Shell.Kill`
kills the process. -/
inductive TermKind where
  | gracefulExit
  | forceKill
deriving DecidableEq, Repr

/-- Outcome of one file's run: the registered test cases, why the loop
ended, and how the shell session was terminated. -/
structure RunOutcome where
  cases : List CaseRecord
  stop : StopReason
  termination : TermKind
deriving DecidableEq, Repr

/-- `performInteractions` after the shell has started: runs the loop and
then terminates the session.  The function's only termination path is the
`defer currentShell.Exit()` registered right after `StartShell` succeeds
(line 71); no branch of the loop calls `Kill`, so the session is always
gracefully exited. -/
def performInteractions (failureStops : Bool) (plans : List Plan) : RunOutcome :=
  let r := runCases failureStops plans
  ⟨r.1, r.2, .gracefulExit⟩

end Run

namespace Tokenizer

/-- Modelled from the spec: the tokenizer package's response evaluation
(`Interaction.evaluateResponse`) is not in the sources, only its unit
tests.  Per §4.4: exact policy compares the sequences element-wise
including length; a literal `"..."` expected line is a greedy wildcard
tail accepting all remaining actual content; both sequences empty is a
match.  The in-repo `TestEvaluateResponse` vectors agree. -/
def matchLines : List String → List String → Bool
  | [], [] => true
  | [], _ :: _ => false
  | e :: es, actual =>
    if e = "..." then true
    else
      match actual with
      | [] => false
      | a :: as => e == a && matchLines es as

/-- One extracted command with its expected response lines. -/
structure Interaction where
  cmd : String
  response : List String
deriving DecidableEq, Repr

/-- Modelled from the spec: prompt detection of the tokenizer's code-block
line classifier (not in the sources).  Per §4.1 step 2 a line beginning
with `"$ "` or `"> "` starts a new command, and the text after the prompt,
trimmed, is the command string. -/
def promptCommand (line : String) : Option String :=
  match stripPrefixCL ['$', ' '] line.toList with
  | some rest => some (String.mk (trimCL rest))
  | none =>
    match stripPrefixCL ['>', ' '] line.toList with
    | some rest => some (String.mk (trimCL rest))
    | none => none

/-- Modelled from the spec: the tokenizer's grouping of a code block's
lines into interactions (not in the sources).  Per §4.1 steps 2-4: a
prompt line starts a new command and closes the previous one; lines after
a command up to the next prompt are its expected response, in order; lines
before any prompt are discarded, but a later prompt still starts a valid
interaction.  `cur` carries the open command with its response lines
accumulated in reverse. -/
def extractLines : List String → Option (String × List String) → List Interaction
  | [], none => []
  | [], some cur => [⟨cur.1, cur.2.reverse⟩]
  | line :: rest, cur =>
    match promptCommand line with
    | some cmd =>
      match cur with
      | none => extractLines rest (some (cmd, []))
      | some prev => ⟨prev.1, prev.2.reverse⟩ :: extractLines rest (some (cmd, []))
    | none =>
      match cur with
      | none => extractLines rest none
      | some prev => extractLines rest (some (prev.1, line :: prev.2))

/-- Splitting a code block's content into interactions. -/
def extractInteractions (lines : List String) : List Interaction :=
  extractLines lines none

/-- The opening brace character, `\x7b`. -/
def obrace : Char := Char.ofNat 123

/-- The closing brace character, `\x7d`. -/
def cbrace : Char := Char.ofNat 125

/-- Splits a character list at the first occurrence of `t`, dropping the
occurrence; `none` when `t` does not occur. -/
def splitAtChar : List Char → Char → Option (List Char × List Char)
  | [], _ => none
  | c :: cs, t =>
    if c = t then some ([], cs)
    else (splitAtChar cs t).map (fun p => (c :: p.1, p.2))

/-- The attribute namespace of shelldoc block annotations: only keys
beginning with `shelldoc` are recognised (`TestTokenizeFenced`,
`TestParseCodeBlockInfoString`). -/
def attributeNamespace : String := "shelldoc"

/-- Splits a character list into space-separated words, dropping empty
fields; `acc` carries the current word reversed. -/
def splitWordsAux : List Char → List Char → List (List Char)
  | [], acc => if acc.isEmpty then [] else [acc.reverse]
  | c :: cs, acc =>
    if c = ' ' then
      if acc.isEmpty then splitWordsAux cs [] else acc.reverse :: splitWordsAux cs []
    else splitWordsAux cs (c :: acc)

/-- The space-separated words of a character list. -/
def splitWords (cs : List Char) : List (List Char) := splitWordsAux cs []

/-- One attribute token: `key=value` splits at the first `=`, a bare key
maps to the empty value. -/
def parseToken (tok : List Char) : String × String :=
  match splitAtChar tok '=' with
  | none => (String.mk tok, "")
  | some p => (String.mk p.1, String.mk p.2)

/-- Inserting a key/value pair into an attribute list, keeping the last
occurrence of a duplicated key. -/
def insertAttr (attrs : List (String × String)) (kv : String × String) :
    List (String × String) :=
  attrs.filter (fun p => p.1 ≠ kv.1) ++ [kv]

/-- The attribute tokens of a brace-delimited suffix: whitespace-separated
tokens, kept only when the key lies in the `shelldoc` namespace; duplicate
keys keep the last occurrence. -/
def parseAttributes (content : List Char) : List (String × String) :=
  (splitWords content).foldl
    (fun acc tok =>
      let kv := parseToken tok
      if (stripPrefixCL attributeNamespace.toList kv.1.toList).isSome then
        insertAttr acc kv
      else acc)
    []

/-- Modelled from the spec: `parseCodeBlockInfoString` of the tokenizer
package is not in the sources, only its unit tests.  Attribute handling
follows §4.1 step 5 (tokens inside the brace-delimited suffix, restricted
to the `shelldoc` namespace, duplicates keep the last occurrence).  The
language is the trimmed text before the brace suffix; the in-repo
`TestParseCodeBlockInfoString` pins that an info string without a brace
suffix yields an empty language and no attributes (its "language only"
case expects `("", \x7b\x7d)` for `"bash"`), so the brace suffix is
required for the language to be reported. -/
def parseCodeBlockInfoString (info : String) : String × List (String × String) :=
  match splitAtChar info.toList obrace with
  | none => ("", [])
  | some pre =>
    match splitAtChar pre.2 cbrace with
    | none => ("", [])
    | some inner => (String.mk (trimCL pre.1), parseAttributes inner.1)

end Tokenizer

end Shelldoc

namespace Shelldoc
open Shell

theorem stripPrefixCL_self_append (p r : List Char) :
    stripPrefixCL p (p ++ r) = some r := by
  induction p with
  | nil => rfl
  | cons a as ih => simp [stripPrefixCL, ih]

theorem goAtoi_some_ne_nil (tok : String) (n : Int) (h : goAtoi tok = some n) :
    tok.toList ≠ [] := by
  intro hnil
  obtain ⟨d⟩ := tok
  simp only [String.toList] at hnil
  subst hnil
  simp [goAtoi, digitsToNat] at h

theorem endMatch_marker_append (tok : String) (h : tok.toList ≠ []) :
    endMatch (endMarker ++ " " ++ tok) = some tok := by
  obtain ⟨d⟩ := tok
  have h1 : (endMarker ++ " " ++ String.mk d).toList = (endMarker ++ " ").toList ++ d := by
    rfl
  simp only [endMatch, h1, stripPrefixCL_self_append]
  match d, h with
  | c :: cs, _ => rfl

theorem matchesBegin_marker : matchesBegin beginMarker = true := by decide

theorem matchesBegin_marker_append (tok : String) :
    matchesBegin (endMarker ++ " " ++ tok) = false := by
  obtain ⟨d⟩ := tok
  have h1 : (endMarker ++ " " ++ String.mk d).toList
      = '<' :: ("<<<<<<<<<SHELLDOC_MARKER ".toList ++ d) := rfl
  simp only [matchesBegin, h1]
  rw [beq_eq_false_iff_ne]
  intro h
  have h3 : beginMarker.toList.head? = some '<' := by rw [← h]; rfl
  have h4 : beginMarker.toList.head? = some '>' := rfl
  rw [h3] at h4
  exact absurd h4 (by decide)

theorem scanLines_skip (junk rest acc : List String)
    (h : ∀ l ∈ junk, matchesBegin l = false) :
    scanLines (junk ++ rest) false acc = scanLines rest false acc := by
  induction junk with
  | nil => rfl
  | cons l ls ih =>
    have h1 : matchesBegin l = false := h l (by simp)
    simp only [List.cons_append, scanLines, h1]
    simp only [Bool.false_eq_true, if_false, Bool.not_false, if_true]
    exact ih (fun x hx => h x (by simp [hx]))

theorem scanLines_collect (body : List String) (endline : String) (tail acc : List String)
    (tok : String) (n : Int)
    (hbody : ∀ l ∈ body, matchesBegin l = false ∧ endMatch l = none)
    (hbegin : matchesBegin endline = false)
    (hend : endMatch endline = some tok)
    (htok : goAtoi tok = some n) :
    scanLines (body ++ endline :: tail) true acc = .success (acc ++ body) n := by
  induction body generalizing acc with
  | nil =>
    simp only [List.nil_append, scanLines, hbegin, hend, htok]
    simp
  | cons l ls ih =>
    obtain ⟨hm, he⟩ := hbody l (by simp)
    simp only [List.cons_append, scanLines, hm, he]
    simp only [Bool.false_eq_true, if_false, Bool.not_true, if_false]
    simp only [List.append_eq]
    rw [ih (acc ++ [l]) (fun x hx => hbody x (List.mem_cons_of_mem _ hx))]
    simp

theorem scanLines_protocol (body : List String) (endline : String) (tail acc : List String)
    (tok : String)
    (hbody : ∀ l ∈ body, matchesBegin l = false ∧ endMatch l = none)
    (hbegin : matchesBegin endline = false)
    (hend : endMatch endline = some tok)
    (htok : goAtoi tok = none) :
    scanLines (body ++ endline :: tail) true acc = .protocolError := by
  induction body generalizing acc with
  | nil =>
    simp only [List.nil_append, scanLines, hbegin, hend, htok]
    simp
  | cons l ls ih =>
    obtain ⟨hm, he⟩ := hbody l (by simp)
    simp only [List.cons_append, scanLines, hm, he]
    simp only [Bool.false_eq_true, if_false, Bool.not_true, if_false]
    simp only [List.append_eq]
    exact ih (acc ++ [l]) (fun x hx => hbody x (List.mem_cons_of_mem _ hx))

theorem scanLines_output_clean (stream : List String) (b : Bool) (acc o : List String)
    (r : Int)
    (hacc : ∀ l ∈ acc, matchesBegin l = false ∧ endMatch l = none)
    (h : scanLines stream b acc = .success o r) :
    ∀ l ∈ o, matchesBegin l = false ∧ endMatch l = none := by
  induction stream generalizing b acc with
  | nil =>
    simp only [scanLines, ScanResult.success.injEq] at h
    obtain ⟨rfl, rfl⟩ := h
    exact hacc
  | cons line rest ih =>
    simp only [scanLines] at h
    cases hm : matchesBegin line with
    | true =>
      rw [hm] at h
      simp only [if_true] at h
      exact ih _ _ hacc h
    | false =>
      rw [hm] at h
      simp only [Bool.false_eq_true, if_false] at h
      cases b with
      | false =>
        simp only [Bool.not_false, if_true] at h
        exact ih _ _ hacc h
      | true =>
        simp only [Bool.not_true, Bool.false_eq_true, if_false] at h
        cases he : endMatch line with
        | some tok =>
          simp only [he] at h
          cases ha : goAtoi tok with
          | some v =>
            simp only [ha, ScanResult.success.injEq] at h
            obtain ⟨rfl, rfl⟩ := h
            exact hacc
          | none =>
            simp only [ha] at h
            exact absurd h (by simp)
        | none =>
          simp only [he] at h
          refine ih _ _ ?_ h
          intro x hx
          rcases List.mem_append.mp hx with hxa | hxl
          · exact hacc x hxa
          · rw [List.mem_singleton.mp hxl]
            exact ⟨hm, he⟩

theorem scanLines_full (junk body tail : List String) (tok : String) (n : Int)
    (hjunk : ∀ l ∈ junk, matchesBegin l = false)
    (hbody : ∀ l ∈ body, matchesBegin l = false ∧ endMatch l = none)
    (htok : goAtoi tok = some n) :
    scanLines (junk ++ (beginMarker :: (body ++ ((endMarker ++ " " ++ tok) :: tail)))) false []
      = .success body n := by
  rw [scanLines_skip junk _ [] hjunk]
  simp only [scanLines, matchesBegin_marker, if_true]
  rw [scanLines_collect body _ tail [] tok n hbody (matchesBegin_marker_append tok)
      (endMatch_marker_append tok (goAtoi_some_ne_nil tok n htok)) htok]
  simp

/-- Claim C1: executing a command writes a begin-marker line and then the
command joined by `;` with an end-marker-plus-exit-code echo into the
session's input stream; the output scan discards every line before the
begin marker, collects the lines after it until the end-marker-plus-token
line, and returns those lines with the token parsed as the exit code. -/
theorem C1_executeCommand_frames_and_scans (command tok : String)
    (junk body tail : List String) (n : Int)
    (hjunk : ∀ l ∈ junk, matchesBegin l = false)
    (hbody : ∀ l ∈ body, matchesBegin l = false ∧ endMatch l = none)
    (htok : goAtoi tok = some n) :
    writtenInput command
      = ["echo \"" ++ beginMarker ++ "\"",
         goTrimSpace command ++ "; echo \"" ++ endMarker ++ " $?\""] ∧
    scanResult (junk ++ (beginMarker :: (body ++ ((endMarker ++ " " ++ tok) :: tail))))
      = ⟨body, n, none⟩ := by
  refine ⟨rfl, ?_⟩
  rw [scanResult, scanLines_full junk body tail tok n hjunk hbody htok]

/-- Claim C1 witness: a concrete banner line, output line and exit token. -/
theorem C1_witness :
    writtenInput " ls -l "
      = ["echo \"" ++ beginMarker ++ "\"",
         goTrimSpace " ls -l " ++ "; echo \"" ++ endMarker ++ " $?\""] ∧
    scanResult (["banner"] ++ (beginMarker :: (["file1"] ++ ((endMarker ++ " " ++ "0") :: ["later"]))))
      = ⟨["file1"], 0, none⟩ :=
  C1_executeCommand_frames_and_scans " ls -l " "0" ["banner"] ["file1"] ["later"] 0
    (by decide) (by decide) (by decide)

/-- Claim C2: the call races the scan against the timeout timer and the
cancellation context: the scan winning returns the scanned result, the
timer winning (possible only for a positive timeout) returns `ErrTimeout`,
cancellation winning returns `ErrCancelled`, and with a zero timeout no
timer exists, so only the scan or cancellation can end the wait. -/
theorem C2_race_characterization (stream : List String) (timeout : Nat) :
    executeCommand stream timeout .scanDone = some (scanResult stream) ∧
    (0 < timeout → executeCommand stream timeout .timerFired
        = some ⟨[], -1, some .timeout⟩) ∧
    executeCommand stream timeout .cancelled = some ⟨[], -1, some .cancelled⟩ ∧
    executeCommand stream 0 .timerFired = none := by
  refine ⟨?_, fun h => ?_, ?_, rfl⟩
  · by_cases h : 0 < timeout <;> simp [executeCommand, h]
  · simp [executeCommand, h]
  · by_cases h : 0 < timeout <;> simp [executeCommand, h]

/-- Claim C2 witness: the race outcomes at a concrete stream and timeout. -/
theorem C2_witness :
    executeCommand ["x"] 5 .scanDone = some (scanResult ["x"]) ∧
    (0 < 5 → executeCommand ["x"] 5 .timerFired = some ⟨[], -1, some .timeout⟩) ∧
    executeCommand ["x"] 5 .cancelled = some ⟨[], -1, some .cancelled⟩ ∧
    executeCommand ["x"] 0 .timerFired = none :=
  C2_race_characterization ["x"] 5

/-- Claim C9: every error outcome of `ExecuteCommand` — timeout,
cancellation, or exit-code parse failure — carries a nil output slice and
exit code `-1`; partial output is never returned alongside an error. -/
theorem C9_errors_return_nil_output (stream : List String) (timeout : Nat)
    (w : RaceWinner) (r : ExecResult) (e : ExecErr)
    (hr : executeCommand stream timeout w = some r) (he : r.err = some e) :
    r.output = [] ∧ r.rc = -1 := by
  cases w with
  | scanDone =>
    have hx : scanResult stream = r := by
      by_cases h : 0 < timeout <;> simpa [executeCommand, h] using hr
    subst hx
    rw [scanResult] at he ⊢
    cases hs : scanLines stream false []
    case success o2 r2 =>
      rw [hs] at he
      simp at he
    case protocolError =>
      exact ⟨rfl, rfl⟩
  | timerFired =>
    by_cases h : 0 < timeout
    · have hx : (⟨[], -1, some .timeout⟩ : ExecResult) = r := by
        simpa [executeCommand, h] using hr
      subst hx
      exact ⟨rfl, rfl⟩
    · simp [executeCommand, h] at hr
  | cancelled =>
    have hx : (⟨[], -1, some .cancelled⟩ : ExecResult) = r := by
      by_cases h : 0 < timeout <;> simpa [executeCommand, h] using hr
    subst hx
    exact ⟨rfl, rfl⟩

/-- Claim C9 witness: the protocol-error path at a concrete stream with an
unparsable exit token. -/
theorem C9_witness :
    (⟨[], -1, some .protocol⟩ : ExecResult).output = [] ∧
    (⟨[], -1, some .protocol⟩ : ExecResult).rc = -1 :=
  C9_errors_return_nil_output [beginMarker, endMarker ++ " xyz"] 0 .scanDone
    ⟨[], -1, some .protocol⟩ .protocol (by decide) (by decide)

/-- Claim C10: the output of a successful scan never contains a framing
marker line: no returned line matches the begin-marker pattern or the
end-marker-plus-token pattern. -/
theorem C10_output_contains_no_markers (stream o : List String) (r : Int)
    (h : scanResult stream = ⟨o, r, none⟩) :
    ∀ l ∈ o, matchesBegin l = false ∧ endMatch l = none := by
  have h1 : scanLines stream false [] = .success o r := by
    rw [scanResult] at h
    cases hs : scanLines stream false []
    case success o2 r2 =>
      rw [hs] at h
      simp only [ExecResult.mk.injEq, and_true] at h
      rw [h.1, h.2]
    case protocolError =>
      rw [hs] at h
      simp at h
  exact scanLines_output_clean stream false [] o r (by simp) h1

/-- Claim C10 witness: the collected line of a concrete scan matches
neither marker pattern. -/
theorem C10_witness :
    matchesBegin "hello" = false ∧ endMatch "hello" = none :=
  C10_output_contains_no_markers [beginMarker, "hello", endMarker ++ " 0"]
    ["hello"] 0 (by decide) "hello" (by simp)

open Run

theorem stepStop_of_ctxDone (fs : Bool) (p : Plan) (h : p.ctxDoneAtStart = true) :
    stepStop fs p = some .cancelledAtTop := by
  simp [stepStop, h]

theorem stepStop_of_cancelled (fs : Bool) (p : Plan) (h1 : p.ctxDoneAtStart = false)
    (h2 : p.execErr = some .cancelled) :
    stepStop fs p = some .cancelledDuring := by
  simp [stepStop, h1, h2]

theorem stepStop_of_timeout (fs : Bool) (p : Plan) (h1 : p.ctxDoneAtStart = false)
    (h2 : p.execErr = some .timeout) :
    stepStop fs p = some .timedOut := by
  simp [stepStop, h1, h2]

theorem stepStop_of_protocol (fs : Bool) (p : Plan) (h1 : p.ctxDoneAtStart = false)
    (h2 : p.execErr = some .protocol) :
    stepStop fs p = none := by
  simp [stepStop, h1, h2, stepCase, executeResultCode, hasFailure]

theorem runCases_cons_continue (fs : Bool) (p : Plan) (rest : List Plan)
    (h : stepStop fs p = none) :
    runCases fs (p :: rest)
      = (stepCase p :: (runCases fs rest).1, (runCases fs rest).2) := by
  simp only [runCases, h]

theorem runCases_cons_stop (fs : Bool) (p : Plan) (rest : List Plan) (s : StopReason)
    (h : stepStop fs p = some s) (hs : s ≠ .cancelledAtTop) :
    runCases fs (p :: rest) = ([stepCase p], s) := by
  cases s
  case cancelledAtTop => exact absurd rfl hs
  all_goals simp only [runCases, h]

theorem runCases_cons_ctxDone (fs : Bool) (p : Plan) (rest : List Plan)
    (h : p.ctxDoneAtStart = true) :
    runCases fs (p :: rest) = ([], .cancelledAtTop) := by
  simp only [runCases, stepStop_of_ctxDone fs p h]

theorem runCases_append_continue (fs : Bool) (pre rest : List Plan)
    (hpre : ∀ q ∈ pre, stepStop fs q = none) :
    runCases fs (pre ++ rest)
      = (pre.map stepCase ++ (runCases fs rest).1, (runCases fs rest).2) := by
  induction pre with
  | nil => simp
  | cons q qs ih =>
    simp only [List.cons_append, runCases_cons_continue fs q (qs ++ rest)
      (hpre q (List.mem_cons_self q qs))]
    rw [ih (fun x hx => hpre x (List.mem_cons_of_mem _ hx))]
    simp

/-- Claim C3 counterexample: a run whose first interaction times out stops
with the interaction marked as an execution error, but the session is
terminated by the deferred graceful `Exit`, not force-terminated — the
force-termination part of the claim is false on the code. -/
theorem C3_counterexample :
    (performInteractions false
        [⟨false, some .timeout, false⟩, ⟨false, none, true⟩]).stop = .timedOut ∧
    (performInteractions false
        [⟨false, some .timeout, false⟩, ⟨false, none, true⟩]).cases
      = [⟨true, false, .resultExecutionError⟩] ∧
    (performInteractions false
        [⟨false, some .timeout, false⟩, ⟨false, none, true⟩]).termination
      ≠ TermKind.forceKill := by
  decide

/-- Claim C3 (amended): when a command execution ends in a timeout, the
offending interaction is marked with an execution-error state and the run
for that file stops without attempting the remaining interactions; the
session is then terminated by the deferred graceful `Exit`, not
force-killed. -/
theorem C3_timeout_aborts_run (fs : Bool) (pre : List Plan) (p : Plan) (rest : List Plan)
    (hpre : ∀ q ∈ pre, stepStop fs q = none)
    (h1 : p.ctxDoneAtStart = false) (h2 : p.execErr = some .timeout) :
    performInteractions fs (pre ++ p :: rest)
      = ⟨pre.map stepCase ++ [stepCase p], .timedOut, .gracefulExit⟩ ∧
    (stepCase p).errorRegistered = true ∧
    (stepCase p).resultCode = .resultExecutionError := by
  refine ⟨?_, ?_, ?_⟩
  · rw [performInteractions, runCases_append_continue fs pre (p :: rest) hpre,
      runCases_cons_stop fs p rest .timedOut (stepStop_of_timeout fs p h1 h2)
        (by simp)]
  · simp [stepCase, h2]
  · simp [stepCase, executeResultCode, h2]

/-- Claim C3 witness: one passing interaction, then a timeout, then an
unattempted interaction. -/
theorem C3_witness :
    performInteractions false
        [⟨false, none, true⟩, ⟨false, some .timeout, false⟩, ⟨false, none, true⟩]
      = ⟨[⟨false, false, .resultMatch⟩, ⟨true, false, .resultExecutionError⟩],
          .timedOut, .gracefulExit⟩ ∧
    (stepCase ⟨false, some .timeout, false⟩).errorRegistered = true ∧
    (stepCase ⟨false, some .timeout, false⟩).resultCode = .resultExecutionError :=
  C3_timeout_aborts_run false [⟨false, none, true⟩] ⟨false, some .timeout, false⟩
    [⟨false, none, true⟩] (by decide) rfl rfl

/-- Claim C4 counterexample: after a protocol error (exit code fails to
parse) the loop registers the execution error and then still executes the
remaining interaction — the run is not aborted, refuting the claim's
abort clause. -/
theorem C4_counterexample :
    runCases false [⟨false, some .protocol, false⟩, ⟨false, none, true⟩]
      = ([⟨true, false, .resultExecutionError⟩, ⟨false, false, .resultMatch⟩],
          .completed) := by
  decide

/-- Claim C4 (amended): when the end marker is found but its trailing
token does not parse as an integer, `ExecuteCommand` returns the protocol
error (with nil output and exit code -1), the interaction is marked as an
execution error — but the remaining interactions in the file are still
executed: only timeout and cancellation break the loop. -/
theorem C4_protocol_error_continues (fs : Bool) (p : Plan) (rest : List Plan)
    (junk body tail : List String) (tok : String)
    (hjunk : ∀ l ∈ junk, Shell.matchesBegin l = false)
    (hbody : ∀ l ∈ body, Shell.matchesBegin l = false ∧ Shell.endMatch l = none)
    (hne : tok.toList ≠ []) (htok : Shell.goAtoi tok = none)
    (h1 : p.ctxDoneAtStart = false) (h2 : p.execErr = some .protocol) :
    Shell.scanResult
        (junk ++ (Shell.beginMarker ::
          (body ++ ((Shell.endMarker ++ " " ++ tok) :: tail))))
      = ⟨[], -1, some .protocol⟩ ∧
    (stepCase p).errorRegistered = true ∧
    (stepCase p).resultCode = .resultExecutionError ∧
    runCases fs (p :: rest)
      = (stepCase p :: (runCases fs rest).1, (runCases fs rest).2) := by
  refine ⟨?_, by simp [stepCase, h2], by simp [stepCase, executeResultCode, h2], ?_⟩
  · rw [Shell.scanResult, scanLines_skip junk _ [] hjunk]
    simp only [scanLines, matchesBegin_marker, if_true]
    rw [scanLines_protocol body _ tail [] tok hbody (matchesBegin_marker_append tok)
      (endMatch_marker_append tok hne) htok]
  · exact runCases_cons_continue fs p rest (stepStop_of_protocol fs p h1 h2)

/-- Claim C4 witness: an unparsable exit token and a protocol-error
interaction followed by one that still runs. -/
theorem C4_witness :
    Shell.scanResult
        (["junk"] ++ (Shell.beginMarker ::
          (["out"] ++ ((Shell.endMarker ++ " " ++ "xyz") :: []))))
      = ⟨[], -1, some .protocol⟩ ∧
    (stepCase ⟨false, some .protocol, false⟩).errorRegistered = true ∧
    (stepCase ⟨false, some .protocol, false⟩).resultCode = .resultExecutionError ∧
    runCases false [⟨false, some .protocol, false⟩, ⟨false, none, true⟩]
      = (stepCase ⟨false, some .protocol, false⟩
          :: (runCases false [⟨false, none, true⟩]).1,
         (runCases false [⟨false, none, true⟩]).2) :=
  C4_protocol_error_continues false ⟨false, some .protocol, false⟩
    [⟨false, none, true⟩] ["junk"] ["out"] [] "xyz"
    (by decide) (by decide) (by decide) (by decide) rfl rfl

/-- Claim C5: cancellation is checked before each interaction is
dispatched; once observed at the top of the loop the run registers nothing
further and returns the partial results gathered so far, and an
already-cancelled context makes `ExecuteCommand` return `ErrCancelled`
without consuming the scan result. -/
theorem C5_cancellation_stops_dispatch (fs : Bool) (pre : List Plan) (p : Plan)
    (rest : List Plan) (stream : List String) (timeout : Nat)
    (hpre : ∀ q ∈ pre, stepStop fs q = none)
    (h1 : p.ctxDoneAtStart = true) :
    performInteractions fs (pre ++ p :: rest)
      = ⟨pre.map stepCase, .cancelledAtTop, .gracefulExit⟩ ∧
    Shell.executeCommand stream timeout .cancelled
      = some ⟨[], -1, some .cancelled⟩ := by
  constructor
  · rw [performInteractions, runCases_append_continue fs pre (p :: rest) hpre,
      runCases_cons_ctxDone fs p rest h1]
    simp
  · by_cases h : 0 < timeout <;> simp [Shell.executeCommand, h]

/-- Claim C5 witness: one completed interaction, then cancellation
observed before the second is dispatched. -/
theorem C5_witness :
    performInteractions false
        [⟨false, none, true⟩, ⟨true, none, true⟩, ⟨false, none, true⟩]
      = ⟨[⟨false, false, .resultMatch⟩], .cancelledAtTop, .gracefulExit⟩ ∧
    Shell.executeCommand ["x"] 0 .cancelled = some ⟨[], -1, some .cancelled⟩ :=
  C5_cancellation_stops_dispatch false [⟨false, none, true⟩] ⟨true, none, true⟩
    [⟨false, none, true⟩] ["x"] 0 (by decide) rfl

open Tokenizer

theorem matchLines_ellipsis_tail (pre tail actual : List String)
    (hpre : "..." ∉ pre) :
    matchLines (pre ++ "..." :: tail) actual = true ↔ ∃ rest, actual = pre ++ rest := by
  induction pre generalizing actual with
  | nil =>
    simp only [List.nil_append, matchLines, if_pos rfl]
    exact ⟨fun _ => ⟨actual, rfl⟩, fun _ => rfl⟩
  | cons e es ih =>
    have he : ¬ e = "..." := fun h => hpre (h ▸ List.mem_cons_self e es)
    cases actual with
    | nil =>
      simp only [List.cons_append, matchLines, if_neg he]
      constructor
      · intro h; cases h
      · rintro ⟨rest, hr⟩; cases hr
    | cons a as =>
      simp only [List.cons_append, matchLines, if_neg he, Bool.and_eq_true, beq_iff_eq,
        List.append_eq]
      rw [ih as (fun hm => hpre (List.mem_cons_of_mem _ hm))]
      constructor
      · rintro ⟨rfl, rest, rfl⟩
        exact ⟨rest, rfl⟩
      · rintro ⟨rest, hr⟩
        injection hr with h1 h2
        exact ⟨h1.symm, rest, h2⟩

/-- Claim C6: a literal ellipsis line in the expected response is a greedy
wildcard tail: the expected lines before it must match the actual lines
exactly (no constraint when it is first) and everything from its position
on is accepted, witnessed by the three laws from the spec. -/
theorem C6_ellipsis_matching (pre tail actual : List String)
    (hpre : "..." ∉ pre) :
    (matchLines (pre ++ "..." :: tail) actual = true ↔ ∃ rest, actual = pre ++ rest) ∧
    matchLines ["X", "..."] ["X", "Y", "Z"] = true ∧
    matchLines ["..."] [] = true ∧
    matchLines ["X", "..."] ["Q"] = false :=
  ⟨matchLines_ellipsis_tail pre tail actual hpre, by decide, by decide, by decide⟩

/-- Claim C6 witness: the wildcard tail accepts a longer actual output at
a concrete prefix. -/
theorem C6_witness :
    matchLines (["X"] ++ "..." :: []) ["X", "Y"] = true ∧
    matchLines ["X", "..."] ["X", "Y", "Z"] = true ∧
    matchLines ["..."] [] = true ∧
    matchLines ["X", "..."] ["Q"] = false :=
  have h := C6_ellipsis_matching ["X"] [] ["X", "Y"] (by decide)
  ⟨h.1.mpr ⟨["Y"], rfl⟩, h.2.1, h.2.2.1, h.2.2.2⟩

theorem extractLines_drop_orphans (orphans rest : List String)
    (h : ∀ l ∈ orphans, promptCommand l = none) :
    extractLines (orphans ++ rest) none = extractLines rest none := by
  induction orphans with
  | nil => rfl
  | cons l ls ih =>
    simp only [List.cons_append, extractLines, h l (List.mem_cons_self l ls)]
    exact ih (fun x hx => h x (List.mem_cons_of_mem _ hx))

/-- Claim C7: extraction splits a code block at prompt lines: `$ echo A`
followed by `A` yields one interaction with command `echo A` and expected
response `[A]`; several prompts yield one interaction each, in order; and
response lines before any prompt are dropped while a later prompt still
starts a valid interaction. -/
theorem C7_extraction (orphans rest : List String)
    (horph : ∀ l ∈ orphans, promptCommand l = none) :
    extractInteractions ["$ echo A", "A"] = [⟨"echo A", ["A"]⟩] ∧
    extractInteractions ["$ echo one", "one", "$ echo two", "two"]
      = [⟨"echo one", ["one"]⟩, ⟨"echo two", ["two"]⟩] ∧
    extractInteractions (orphans ++ rest) = extractInteractions rest :=
  ⟨by decide, by decide, extractLines_drop_orphans orphans rest horph⟩

/-- Claim C7 witness: the orphan line of the in-repo test is dropped and
the following prompt still yields its interaction. -/
theorem C7_witness :
    extractInteractions ["$ echo A", "A"] = [⟨"echo A", ["A"]⟩] ∧
    extractInteractions ["$ echo one", "one", "$ echo two", "two"]
      = [⟨"echo one", ["one"]⟩, ⟨"echo two", ["two"]⟩] ∧
    extractInteractions (["orphan response line"] ++ ["$ echo hello"])
      = extractInteractions ["$ echo hello"] :=
  C7_extraction ["orphan response line"] ["$ echo hello"] (by decide)

theorem splitAtChar_of_not_mem (cs : List Char) (t : Char) (h : t ∉ cs) :
    splitAtChar cs t = none := by
  induction cs with
  | nil => rfl
  | cons c cs ih =>
    have hne : ¬ c = t := fun he => h (he ▸ List.mem_cons_self c cs)
    simp only [splitAtChar, if_neg hne, ih (fun hm => h (List.mem_cons_of_mem _ hm))]
    rfl

/-- Claim C8 counterexample: the in-repo unit tests pin the behaviour of
`parseCodeBlockInfoString` on a bare language: `"bash"` parses to an empty
language, not to its leading word `bash`, refuting the claim's
leading-word clause for info strings without a brace suffix. -/
theorem C8_counterexample :
    (parseCodeBlockInfoString "bash").1 ≠ "bash" ∧
    parseCodeBlockInfoString "bash" = ("", []) := by
  decide

/-- Claim C8 (amended): the language is the leading word only when a
brace-delimited attribute suffix is present (an info string without braces
yields an empty language and no attributes); within the braces, attributes
are the `key=value` or bare-key tokens whose key carries the `shelldoc`
namespace, keys outside that namespace are dropped, and duplicate keys
keep the last occurrence. -/
theorem C8_info_string_parsing (info : String) (h : obrace ∉ info.toList) :
    parseCodeBlockInfoString info = ("", []) ∧
    parseCodeBlockInfoString "shell \x7bshelldocexitcode=0\x7d"
      = ("shell", [("shelldocexitcode", "0")]) ∧
    parseCodeBlockInfoString "bash \x7bshelldocexitcode=1 shelldocwhatever\x7d"
      = ("bash", [("shelldocexitcode", "1"), ("shelldocwhatever", "")]) ∧
    parseCodeBlockInfoString "shell \x7b.class other=value shelldocexitcode=2\x7d"
      = ("shell", [("shelldocexitcode", "2")]) ∧
    parseCodeBlockInfoString "sh \x7bshelldocexitcode=1 shelldocexitcode=2\x7d"
      = ("sh", [("shelldocexitcode", "2")]) := by
  refine ⟨?_, by decide, by decide, by decide, by decide⟩
  simp only [parseCodeBlockInfoString, splitAtChar_of_not_mem info.toList obrace h]

/-- Claim C8 witness: a language-only info string has no brace, so it
parses to the empty language with no attributes. -/
theorem C8_witness :
    parseCodeBlockInfoString "bash" = ("", []) ∧
    parseCodeBlockInfoString "shell \x7bshelldocexitcode=0\x7d"
      = ("shell", [("shelldocexitcode", "0")]) ∧
    parseCodeBlockInfoString "bash \x7bshelldocexitcode=1 shelldocwhatever\x7d"
      = ("bash", [("shelldocexitcode", "1"), ("shelldocwhatever", "")]) ∧
    parseCodeBlockInfoString "shell \x7b.class other=value shelldocexitcode=2\x7d"
      = ("shell", [("shelldocexitcode", "2")]) ∧
    parseCodeBlockInfoString "sh \x7bshelldocexitcode=1 shelldocexitcode=2\x7d"
      = ("sh", [("shelldocexitcode", "2")]) :=
  C8_info_string_parsing "bash" (by decide)

end Shelldoc
